import Mathlib

/-!
Shallow embedding of the facility-location repository
(`src/model/util.py`, `src/model/facility_location_model.py`) and proofs
about it.  Python floats are modelled as exact numbers: solver-supplied
variable values, demands, capacities and costs as rationals, trigonometric
quantities as real numbers.  A Python function that can raise is modelled
as an `Option`-valued function, `none` standing for the raised exception.
-/

namespace FLP

open Real

/-- Embedding of `util.Loc`: a latitude/longitude pair (degrees). -/
structure Loc where
  lat : ℝ
  lon : ℝ

noncomputable instance : DecidableEq Loc := Classical.decEq Loc

/-- The clamping step of `Loc.haversine_distance` (util.py lines 35-38):
`if 1.0 < v < 1.01: v = 1.0` and `elif -1.01 < v < -1.0: v = -1.0`.
Generic over the ordered field so it can be evaluated on rationals. -/
def clampV {α : Type} [LinearOrderedField α] (v : α) : α :=
  if 1 < v ∧ v < 101 / 100 then 1
  else if -(101 / 100) < v ∧ v < -1 then -1
  else v

/-- The clamp-then-domain-check step of `Loc.haversine_distance`
(util.py lines 35-41): after clamping, `if v < -1 or v > 1: raise`.
`none` models the raised exception. -/
def checkedV {α : Type} [LinearOrderedField α] (v : α) : Option α :=
  let w := clampV v
  if w < -1 ∨ 1 < w then none else some w

/-- The tail of `Loc.haversine_distance` run on an already-computed
cosine-law value `v`: clamp, domain-check, then `return 6378 * math.acos(v)`
(util.py lines 34-43). -/
noncomputable def havFromV (v : ℝ) : Option ℝ :=
  (checkedV v).map (fun w => 6378 * Real.arccos w)

/-- The cosine-law value computed in `Loc.haversine_distance`
(util.py lines 30-32), with degree-to-radian conversion `* math.pi / 180`. -/
noncomputable def cosLawV (a b : Loc) : ℝ :=
  Real.sin (a.lat * π / 180) * Real.sin (b.lat * π / 180)
    + Real.cos (a.lat * π / 180) * Real.cos (b.lat * π / 180)
      * Real.cos (b.lon * π / 180 - a.lon * π / 180)

/-- Value-level embedding of `Loc.haversine_distance` (util.py lines
20-43): early return `0.0` when the two locations are equal, otherwise
the cosine-law value is clamped, domain-checked and fed to `acos`.
`none` models the raised exception.  In the source `self == other` at
line 27 is object identity (`Loc` defines no `__eq__`); this variant
tests coordinate equality instead.  `haversine_distance_obj` below is
the identity-faithful embedding, and `haversine_obj_agrees` shows the two
return the same value on well-formed objects, so this variant is sound
for every claim about the returned distance. -/
noncomputable def haversine_distance (a b : Loc) : Option ℝ :=
  if a = b then some 0
  else havFromV (cosLawV a b)

/-- A `Loc` object of the source program: `Loc` defines no `__eq__`, so
`self == other` at util.py line 27 compares object identity, not
coordinates.  `oid` models the object identity, `loc` the coordinate
state; distinct objects carry distinct `oid`s even when their coordinates
coincide. -/
structure LocObj where
  oid : ℕ
  loc : Loc

/-- Identity-faithful embedding of `Loc.haversine_distance` (util.py lines
20-43): the early return fires only when the two arguments are the same
object; for distinct objects — even with exactly equal coordinates — the
cosine-law formula is evaluated. -/
noncomputable def haversine_distance_obj (a b : LocObj) : Option ℝ :=
  if a.oid = b.oid then some 0
  else havFromV (cosLawV a.loc b.loc)

/-- The numeric distance used when building shipping costs: the value of
`haversine_distance`, which by `haversine_distance_isSome` always exists in
exact real arithmetic. -/
noncomputable def distKm (a b : Loc) : ℝ :=
  (haversine_distance a b).getD 0

/-- Embedding of `Instance` (facility_location_model.py lines 13-66): the
customer and site tables, indexed by position. -/
structure InstanceE where
  n_customers : ℕ
  demand : ℕ → ℚ
  customerLoc : ℕ → Loc
  n_sites : ℕ
  capacity : ℕ → ℚ
  fixed_cost : ℕ → ℚ
  siteLoc : ℕ → Loc
  shipping_cost : ℚ

/-- The module-level tolerance `eps = 0.0001`
(facility_location_model.py line 10). -/
def eps : ℚ := 1 / 10000

/-- `self.total_demand = self.data.customers['demand'].sum()`
(facility_location_model.py line 94). -/
def totalDemand (I : InstanceE) : ℚ :=
  ((List.range I.n_customers).map I.demand).sum

/-- `self.total_capacity = self.data.sites['capacity'].sum()`
(facility_location_model.py line 95). -/
def totalCapacity (I : InstanceE) : ℚ :=
  ((List.range I.n_sites).map I.capacity).sum

/-- `self.shipping_costs[(i, j)] = shipping_cost * distance(site i, customer j)`
(facility_location_model.py lines 107-110). -/
noncomputable def shippingCosts (I : InstanceE) (i j : ℕ) : ℝ :=
  (I.shipping_cost : ℝ) * distKm (I.siteLoc i) (I.customerLoc j)

/-- The pulp solver statuses relevant to `Model.solve`. -/
inductive LpStatus where
  | Optimal
  | NotSolved
  | Infeasible
  | Unbounded
  | Undefined
deriving DecidableEq

/-- The default of the `timeout_sec` parameter of `Model.solve`
(facility_location_model.py line 126). -/
def default_timeout_sec : ℚ := 120

/-- The message built by the infeasibility pre-check of `Model.solve`
(facility_location_model.py line 130). -/
def infeasibleMsg (I : InstanceE) : String :=
  "Total demand (" ++ toString (totalDemand I) ++ ") exceeds total capacity ("
    ++ toString (totalCapacity I) ++ ")"

/-- Embedding of `Model.solve` (facility_location_model.py lines 126-144).
`backend` is the status the external pulp backend would report from
`super().solve()`; in the source that call receives no time limit, so the
`timeout_sec` parameter (default `default_timeout_sec`) is carried but,
as in the source, never used. -/
def solve (I : InstanceE) (backend : LpStatus) (timeout_sec : ℚ) : LpStatus × String :=
  if totalDemand I > totalCapacity I then
    (LpStatus.Infeasible, infeasibleMsg I)
  else
    match backend with
    | LpStatus.Infeasible => (LpStatus.Infeasible, "Model is infeasible")
    | LpStatus.NotSolved => (LpStatus.NotSolved, "Model not solved to optimality")
    | s => (s, "Model optimal")

/-- Demand constraint for customer `j`: `lpSum(x[i][j] for i) >= demand[j]`
(facility_location_model.py lines 117-119). -/
def demandConstraint (I : InstanceE) (x : ℕ → ℕ → ℚ) (j : ℕ) : Prop :=
  ((List.range I.n_sites).map (fun i => x i j)).sum ≥ I.demand j

/-- Capacity-linking constraint for site `i`:
`lpSum(x[i][j] for j) <= min(capacity[i], total_demand) * y[i]`
(facility_location_model.py lines 122-124). -/
def capacityConstraint (I : InstanceE) (x : ℕ → ℕ → ℚ) (y : ℕ → ℚ) (i : ℕ) : Prop :=
  ((List.range I.n_customers).map (fun j => x i j)).sum
    ≤ min (I.capacity i) (totalDemand I) * y i

/-- All constraints of the formulated model (facility_location_model.py
lines 97-124): binary `y`, nonnegative `x`, one demand constraint per
customer, one capacity-linking constraint per site. -/
def constraintsHold (I : InstanceE) (x : ℕ → ℕ → ℚ) (y : ℕ → ℚ) : Prop :=
  (∀ i, i < I.n_sites → (y i = 0 ∨ y i = 1))
  ∧ (∀ i j, 0 ≤ x i j)
  ∧ (∀ j, j < I.n_customers → demandConstraint I x j)
  ∧ (∀ i, i < I.n_sites → capacityConstraint I x y i)

/-- All (site, customer) index pairs, in the iteration order of the
objective and of `Model.get_solution`. -/
def sitePairs (I : InstanceE) : List (ℕ × ℕ) :=
  (List.range I.n_sites).flatMap (fun i => (List.range I.n_customers).map (fun j => (i, j)))

/-- The objective of the formulated model (facility_location_model.py
lines 111-114), evaluated at variable values `yv`, `xv`. -/
noncomputable def modelObjective (I : InstanceE) (yv : ℕ → ℚ) (xv : ℕ → ℕ → ℚ) : ℝ :=
  ((((List.range I.n_sites).map (fun i => I.fixed_cost i * yv i)).sum : ℚ) : ℝ)
    + ((sitePairs I).map (fun p => shippingCosts I p.1 p.2 * ((xv p.1 p.2 : ℚ) : ℝ))).sum

/-- Embedding of the `Solution` dataclass (facility_location_model.py
lines 71-81); the dicts `xs` and `ys` become association lists. -/
structure SolutionE where
  status : LpStatus
  value : ℝ
  xs : List ((ℕ × ℕ) × ℚ)
  ys : List (ℕ × ℚ)
  fixed_costs : ℚ
  variable_costs : ℝ

/-- Embedding of `Model.get_solution` (facility_location_model.py lines
146-173): keep the raw values of the variables exceeding `eps`, then sum
fixed and shipping costs over the kept entries.  `yv` and `xv` are the
variable values the solver returned; `objValue` is `pulp.value(objective)`. -/
noncomputable def get_solution (I : InstanceE) (status : LpStatus) (objValue : ℝ)
    (yv : ℕ → ℚ) (xv : ℕ → ℕ → ℚ) : SolutionE :=
  let yval : List (ℕ × ℚ) :=
    ((List.range I.n_sites).filter (fun i => decide (eps < yv i))).map (fun i => (i, yv i))
  let xval : List ((ℕ × ℕ) × ℚ) :=
    ((sitePairs I).filter (fun p => decide (eps < xv p.1 p.2))).map (fun p => (p, xv p.1 p.2))
  let total_fixed_costs : ℚ := (yval.map (fun p => I.fixed_cost p.1 * p.2)).sum
  let total_shipping_costs : ℝ :=
    (xval.map (fun q => shippingCosts I q.1.1 q.1.2 * (q.2 : ℝ))).sum
  ⟨status, objValue, xval, yval, total_fixed_costs, total_shipping_costs⟩

/-- Model of `np.random.randint(low, high, size)` (half-open integer draw):
fails unless `low < high`; `ω` supplies the randomness.  Used by
`Instance.generate` (facility_location_model.py lines 36-51). -/
def np_randint (lo hi : ℤ) (n : ℕ) (ω : ℕ → ℤ) : Option (List ℤ) :=
  if lo < hi then some ((List.range n).map (fun k => lo + ω k % (hi - lo))) else none

/-- Embedding of `Instance.generate` (facility_location_model.py lines
15-54): draw demands, then fixed costs (constant when the range is
degenerate, random otherwise), then capacities.  `custLocs`/`siteLocs`
model the sampled location rows, `ωd`/`ωf`/`ωc` the randomness of the
three draws; `none` models a raised exception. -/
def InstanceE.generate (n_customers : ℕ) (demand_range : ℤ × ℤ)
    (n_sites : ℕ) (capacity_range fixed_cost_range : ℤ × ℤ) (shipping_cost : ℚ)
    (custLocs siteLocs : ℕ → Loc) (ωd ωf ωc : ℕ → ℤ) : Option InstanceE :=
  match np_randint demand_range.1 demand_range.2 n_customers ωd with
  | none => none
  | some ds =>
    match (if fixed_cost_range.1 = fixed_cost_range.2
            then some (List.replicate n_sites fixed_cost_range.1)
            else np_randint fixed_cost_range.1 fixed_cost_range.2 n_sites ωf) with
    | none => none
    | some fs =>
      match np_randint capacity_range.1 capacity_range.2 n_sites ωc with
      | none => none
      | some cs =>
        some ⟨n_customers, fun j => ((ds.getD j 0 : ℤ) : ℚ), custLocs,
              n_sites, fun i => ((cs.getD i 0 : ℤ) : ℚ), fun i => ((fs.getD i 0 : ℤ) : ℚ),
              siteLocs, shipping_cost⟩

/-- A fixed point used by the concrete examples. -/
def P0 : Loc := ⟨0, 0⟩

/-- A `Loc` object holding the coordinates of `P0`. -/
def objP : LocObj := ⟨0, P0⟩

/-- A second, distinct `Loc` object holding exactly the same coordinates
as `objP`. -/
def objQ : LocObj := ⟨1, P0⟩

/-- Concrete instance, spec scenario A: one customer with demand 10 and one
site with capacity 100 and fixed cost 1000, both at the same point,
shipping cost 1. -/
def instA : InstanceE :=
  ⟨1, fun _ => 10, fun _ => P0, 1, fun _ => 100, fun _ => 1000, fun _ => P0, 1⟩

/-- Concrete instance, spec scenario B: one customer with demand 10 and one
site with capacity 5. -/
def instB : InstanceE :=
  ⟨1, fun _ => 10, fun _ => P0, 1, fun _ => 5, fun _ => 1000, fun _ => P0, 1⟩

/-- The cosine-law value always lies in `[-1, 1]` in exact real
arithmetic, for arbitrary (even out-of-range) coordinates. -/
lemma cosLawV_mem_Icc (a b : Loc) : -1 ≤ cosLawV a b ∧ cosLawV a b ≤ 1 := by
  set A := a.lat * π / 180
  set B := b.lat * π / 180
  set C := b.lon * π / 180 - a.lon * π / 180
  have hA : Real.sin A ^ 2 + Real.cos A ^ 2 = 1 := Real.sin_sq_add_cos_sq A
  have hB : Real.sin B ^ 2 + Real.cos B ^ 2 = 1 := Real.sin_sq_add_cos_sq B
  have hC : Real.cos C ^ 2 ≤ 1 := Real.cos_sq_le_one C
  have hbx : Real.cos B ^ 2 * Real.cos C ^ 2 ≤ Real.cos B ^ 2 := by
    have := mul_le_mul_of_nonneg_left hC (sq_nonneg (Real.cos B))
    linarith
  have key : (Real.sin A * Real.sin B + Real.cos A * Real.cos B * Real.cos C) ^ 2
      + (Real.sin A * Real.cos B * Real.cos C - Real.cos A * Real.sin B) ^ 2
      = Real.sin B ^ 2 + Real.cos B ^ 2 * Real.cos C ^ 2 := by
    linear_combination (Real.sin B ^ 2 + Real.cos B ^ 2 * Real.cos C ^ 2) * hA
  have hw := sq_nonneg (Real.sin A * Real.cos B * Real.cos C - Real.cos A * Real.sin B)
  have hsq : cosLawV a b ^ 2 ≤ 1 := by
    show (Real.sin A * Real.sin B + Real.cos A * Real.cos B * Real.cos C) ^ 2 ≤ 1
    linarith
  constructor
  · nlinarith [hsq, sq_nonneg (cosLawV a b + 1)]
  · nlinarith [hsq, sq_nonneg (cosLawV a b - 1)]

/-- On a value already inside `[-1, 1]` the clamp is the identity. -/
lemma clampV_of_mem_Icc {v : ℝ} (h1 : -1 ≤ v) (h2 : v ≤ 1) : clampV v = v := by
  have hc1 : ¬(1 < v ∧ v < 101 / 100) := by
    rintro ⟨hlt, -⟩
    linarith
  have hc2 : ¬(-(101 / 100) < v ∧ v < -1) := by
    rintro ⟨-, hlt⟩
    linarith
  unfold clampV
  rw [if_neg hc1, if_neg hc2]

/-- The distance computation never raises in exact real arithmetic: the
cosine-law value is always in the `acos` domain. -/
lemma haversine_distance_isSome (a b : Loc) : (haversine_distance a b).isSome := by
  unfold haversine_distance
  split
  · rfl
  · obtain ⟨h1, h2⟩ := cosLawV_mem_Icc a b
    unfold havFromV checkedV
    rw [clampV_of_mem_Icc h1 h2, if_neg]
    · rfl
    · rintro (h | h) <;> linarith

/-- With exactly equal coordinates the cosine-law value is exactly 1 in
exact real arithmetic. -/
lemma cosLawV_self (a b : Loc) (hlat : a.lat = b.lat) (hlon : a.lon = b.lon) :
    cosLawV a b = 1 := by
  unfold cosLawV
  rw [hlat, hlon, sub_self, Real.cos_zero, mul_one]
  linear_combination Real.sin_sq_add_cos_sq (b.lat * π / 180)

/-- The exact value 1 passes the clamp and the domain check unchanged. -/
lemma checkedV_one : checkedV (1 : ℝ) = some 1 := by
  unfold checkedV
  rw [clampV_of_mem_Icc (by norm_num) le_rfl, if_neg]
  rintro (h | h) <;> linarith

/-- Feeding the exact value 1 to the clamp-check-acos tail returns 0. -/
lemma havFromV_one : havFromV (1 : ℝ) = some 0 := by
  unfold havFromV
  rw [checkedV_one]
  simp [Real.arccos_one]

/-- The identity-faithful and the value-level embeddings of the distance
return the same value on well-formed objects (equal identity implies
equal state): the only diverging branch is two distinct objects with
equal coordinates, where the evaluated formula also yields 0. -/
lemma haversine_obj_agrees (a b : LocObj) (hwf : a.oid = b.oid → a.loc = b.loc) :
    haversine_distance_obj a b = haversine_distance a.loc b.loc := by
  unfold haversine_distance_obj haversine_distance
  by_cases hid : a.oid = b.oid
  · rw [if_pos hid, if_pos (hwf hid)]
  · rw [if_neg hid]
    by_cases hl : a.loc = b.loc
    · rw [if_pos hl, hl, cosLawV_self b.loc b.loc rfl rfl, havFromV_one]
    · rw [if_neg hl]

/-- Dropping from a mapped sum only entries whose contribution is zero
does not change the sum. -/
lemma sum_map_filter_eq_sum_map {α β : Type} [AddCommMonoid β] (l : List α) (p : α → Bool)
    (f : α → β) (h : ∀ a ∈ l, p a = false → f a = 0) :
    ((l.filter p).map f).sum = (l.map f).sum := by
  induction l with
  | nil => rfl
  | cons hd tl ih =>
    have ih' := ih (fun a ha hpa => h a (List.mem_cons_of_mem hd ha) hpa)
    cases hp : p hd with
    | true => simp [List.filter_cons, hp, ih']
    | false =>
      have h0 : f hd = 0 := h hd (List.mem_cons_self hd tl) hp
      simp [List.filter_cons, hp, ih', h0]

/-- String concatenation is associative. -/
lemma string_append_assoc (a b c : String) : a ++ b ++ c = a ++ (b ++ c) := by
  cases a with
  | mk da =>
    cases b with
    | mk db =>
      cases c with
      | mk dc =>
        show String.mk (da ++ db ++ dc) = String.mk (da ++ (db ++ dc))
        rw [List.append_assoc]

/-- C8 counterexample: `objP` and `objQ` are distinct `Loc` objects whose
latitude and longitude are both exactly equal; since `Loc` defines no
`__eq__`, the `self == other` test is object identity, so the early
return does not fire and the result is produced by evaluating the
acos-based formula — not returned as an immediate `0.0`. -/
theorem distance_identity_cex :
    objP.loc.lat = objQ.loc.lat ∧ objP.loc.lon = objQ.loc.lon
    ∧ objP.oid ≠ objQ.oid
    ∧ haversine_distance_obj objP objQ = havFromV (cosLawV objP.loc objQ.loc)
    ∧ havFromV (cosLawV objP.loc objQ.loc) = some (6378 * Real.arccos 1) := by
  have hid : objP.oid ≠ objQ.oid := by norm_num [objP, objQ]
  refine ⟨rfl, rfl, hid, ?_, ?_⟩
  · unfold haversine_distance_obj
    rw [if_neg hid]
  · rw [cosLawV_self objP.loc objQ.loc rfl rfl]
    unfold havFromV
    rw [checkedV_one]
    rfl

/-- C8 amended: the early return fires exactly on object identity — the
distance from an object to itself is `0.0` immediately; for two distinct
objects the acos-based formula is evaluated, and when their coordinates
are exactly equal the cosine-law value is exactly 1, so the evaluated
formula still returns `0.0` in exact real arithmetic. -/
theorem distance_same_object_zero (a b : LocObj) (hid : a.oid ≠ b.oid)
    (hlat : a.loc.lat = b.loc.lat) (hlon : a.loc.lon = b.loc.lon) :
    haversine_distance_obj a a = some 0
    ∧ haversine_distance_obj a b = havFromV (cosLawV a.loc b.loc)
    ∧ haversine_distance_obj a b = some 0 := by
  refine ⟨?_, ?_, ?_⟩
  · unfold haversine_distance_obj
    rw [if_pos rfl]
  · unfold haversine_distance_obj
    rw [if_neg hid]
  · unfold haversine_distance_obj
    rw [if_neg hid, cosLawV_self a.loc b.loc hlat hlon, havFromV_one]

theorem distance_same_object_zero_witness :
    haversine_distance_obj objP objP = some 0
    ∧ haversine_distance_obj objP objQ = havFromV (cosLawV objP.loc objQ.loc)
    ∧ haversine_distance_obj objP objQ = some 0 :=
  distance_same_object_zero objP objQ (by norm_num [objP, objQ]) rfl rfl

/-- C9: the distance computation is symmetric in its two arguments: it
returns the same (optional) distance for `(a, b)` and `(b, a)`. -/
theorem haversine_symm (a b : Loc) :
    haversine_distance a b = haversine_distance b a := by
  by_cases hab : a = b
  · rw [hab]
  · rw [haversine_distance, haversine_distance, if_neg hab, if_neg (Ne.symm hab)]
    have hv : cosLawV a b = cosLawV b a := by
      unfold cosLawV
      rw [show b.lon * π / 180 - a.lon * π / 180
            = -(a.lon * π / 180 - b.lon * π / 180) by ring,
        Real.cos_neg]
      ring
    rw [hv]

/-- C4: the distance computation raises exactly when the cosine-law value
still lies outside `[-1, 1]` after clamping — in which case no numeric
result is produced — and on the full function the raised error is the
result: it surfaces exactly when the points differ and the clamped value
is out of range. -/
theorem distance_error_iff (v : ℝ) (a b : Loc) :
    (havFromV v = none ↔ (clampV v < -1 ∨ 1 < clampV v))
    ∧ (haversine_distance a b = none
        ↔ (a ≠ b ∧ (clampV (cosLawV a b) < -1 ∨ 1 < clampV (cosLawV a b)))) := by
  have hstage : ∀ w : ℝ, havFromV w = none ↔ (clampV w < -1 ∨ 1 < clampV w) := by
    intro w
    unfold havFromV checkedV
    by_cases h : clampV w < -1 ∨ 1 < clampV w
    · simp [h]
    · simp [h]
  refine ⟨hstage v, ?_⟩
  unfold haversine_distance
  by_cases hab : a = b
  · simp [hab]
  · simp [hab, hstage (cosLawV a b)]

/-- C3 counterexample: at the concrete cosine-law value `v = 1.01`, which
the claim places inside the clamp band `(1.0, 1.01]`, the code does not
treat `v` as `1.0`: the strict test `1.0 < v < 1.01` fails, so the value
reaches the domain check and the computation raises instead. -/
theorem clamp_band_cex :
    (1 : ℚ) < 101 / 100 ∧ ((101 : ℚ) / 100) ≤ 101 / 100
    ∧ checkedV ((101 : ℚ) / 100) = none
    ∧ checkedV ((101 : ℚ) / 100) ≠ some 1 := by
  have hn1 : ¬((1 : ℚ) < 101 / 100 ∧ (101 : ℚ) / 100 < 101 / 100) := by
    rintro ⟨-, h⟩
    exact absurd h (by norm_num)
  have hn2 : ¬(-(101 / 100 : ℚ) < 101 / 100 ∧ (101 : ℚ) / 100 < -1) := by
    rintro ⟨-, h⟩
    exact absurd h (by norm_num)
  have hc : checkedV ((101 : ℚ) / 100) = none := by
    simp only [checkedV, clampV, if_neg hn1, if_neg hn2]
    rw [if_pos (Or.inr (by norm_num : (1 : ℚ) < 101 / 100))]
  refine ⟨by norm_num, le_refl _, hc, ?_⟩
  rw [hc]
  exact fun h => Option.noConfusion h

/-- C3 amended: the clamp bands are the open intervals `(1.0, 1.01)` and
`(-1.01, -1.0)` — strict at `±1.01` — and for a cosine-law value in the
upper band the computation treats it as exactly `1.0` and returns
`6378 * acos(1.0)`; symmetrically for the lower band. -/
theorem clamp_band_amended (v : ℝ) :
    (1 < v → v < 101 / 100 → havFromV v = some (6378 * Real.arccos 1))
    ∧ (-(101 / 100) < v → v < -1 → havFromV v = some (6378 * Real.arccos (-1))) := by
  constructor
  · intro h1 h2
    have hband : (1 : ℝ) < v ∧ v < 101 / 100 := ⟨h1, h2⟩
    simp only [havFromV, checkedV, clampV, if_pos hband]
    norm_num
  · intro h1 h2
    have hn : ¬((1 : ℝ) < v ∧ v < 101 / 100) := by
      rintro ⟨hlt, -⟩
      linarith
    have hband : -(101 / 100 : ℝ) < v ∧ v < -1 := ⟨h1, h2⟩
    simp only [havFromV, checkedV, clampV, if_neg hn, if_pos hband]
    norm_num

theorem clamp_band_amended_witness :
    havFromV ((201 : ℝ) / 200) = some (6378 * Real.arccos 1)
    ∧ havFromV (-((201 : ℝ) / 200)) = some (6378 * Real.arccos (-1)) :=
  ⟨(clamp_band_amended ((201 : ℝ) / 200)).1 (by norm_num) (by norm_num),
   (clamp_band_amended (-((201 : ℝ) / 200))).2 (by norm_num) (by norm_num)⟩

/-- C1: when total demand strictly exceeds total capacity, `Model.solve`
short-circuits: it returns status Infeasible with a message containing
both totals as substrings, and the result is the same for every backend
status and every timeout, i.e. the solver backend is never invoked. -/
theorem solve_infeasible_short_circuit (I : InstanceE) (b₁ b₂ : LpStatus) (t₁ t₂ : ℚ)
    (h : totalDemand I > totalCapacity I) :
    solve I b₁ t₁ = (LpStatus.Infeasible, infeasibleMsg I)
    ∧ solve I b₁ t₁ = solve I b₂ t₂
    ∧ (∃ s t : String, s ++ toString (totalDemand I) ++ t = infeasibleMsg I)
    ∧ (∃ s t : String, s ++ toString (totalCapacity I) ++ t = infeasibleMsg I) := by
  have hs : ∀ b t, solve I b t = (LpStatus.Infeasible, infeasibleMsg I) := by
    intro b t
    unfold solve
    rw [if_pos h]
  refine ⟨hs b₁ t₁, (hs b₁ t₁).trans (hs b₂ t₂).symm, ?_, ?_⟩
  · refine ⟨"Total demand (",
      ") exceeds total capacity (" ++ toString (totalCapacity I) ++ ")", ?_⟩
    simp only [infeasibleMsg, string_append_assoc]
  · exact ⟨"Total demand (" ++ toString (totalDemand I)
        ++ ") exceeds total capacity (", ")", rfl⟩

theorem solve_infeasible_short_circuit_witness :
    totalDemand instB > totalCapacity instB
    ∧ solve instB LpStatus.Optimal default_timeout_sec
        = (LpStatus.Infeasible, infeasibleMsg instB) := by
  have h : totalDemand instB > totalCapacity instB := by
    norm_num [totalDemand, totalCapacity, instB, List.range_succ]
  exact ⟨h, (solve_infeasible_short_circuit instB LpStatus.Optimal LpStatus.NotSolved
    default_timeout_sec 0 h).1⟩

/-- C2: the `timeout_sec` parameter of `Model.solve` (whose default is
`default_timeout_sec = 120`) is never forwarded to the solver backend —
the source calls `super().solve()` with no time limit — so the result of
`solve` is identical for every timeout value and the solver call is not
bounded by the timeout. -/
theorem solve_ignores_timeout (I : InstanceE) (b : LpStatus) (t₁ t₂ : ℚ) :
    solve I b t₁ = solve I b t₂ := rfl

/-- C7: any assignment satisfying the formulated model's constraints
satisfies, for each site, the capacity-linking inequality whose
right-hand coefficient is `min(capacity[i], total_demand)` — not the raw
capacity; with binary `y` this simultaneously bounds the site's outflow by
the raw capacity and by the total demand. -/
theorem capacity_linking_constraint (I : InstanceE) (x : ℕ → ℕ → ℚ) (y : ℕ → ℚ)
    (hc : constraintsHold I x y) (i : ℕ) (hi : i < I.n_sites) :
    ((List.range I.n_customers).map (fun j => x i j)).sum
      ≤ min (I.capacity i) (totalDemand I) * y i
    ∧ ((List.range I.n_customers).map (fun j => x i j)).sum ≤ I.capacity i * y i
    ∧ ((List.range I.n_customers).map (fun j => x i j)).sum ≤ totalDemand I * y i := by
  obtain ⟨hbin, hnn, hdem, hcap⟩ := hc
  have hmain := hcap i hi
  unfold capacityConstraint at hmain
  have hy : 0 ≤ y i := by
    rcases hbin i hi with h | h <;> rw [h] <;> norm_num
  refine ⟨hmain, ?_, ?_⟩
  · exact hmain.trans (mul_le_mul_of_nonneg_right (min_le_left _ _) hy)
  · exact hmain.trans (mul_le_mul_of_nonneg_right (min_le_right _ _) hy)

theorem capacity_linking_constraint_witness :
    constraintsHold instA (fun _ _ => 10) (fun _ => 1)
    ∧ ((List.range instA.n_customers).map (fun j => (10 : ℚ))).sum
        ≤ min (instA.capacity 0) (totalDemand instA) * 1 := by
  have hc : constraintsHold instA (fun _ _ => 10) (fun _ => 1) := by
    refine ⟨fun i _ => Or.inr rfl, fun i j => by norm_num, fun j hj => ?_, fun i hi => ?_⟩
    · have hj' : j = 0 := Nat.lt_one_iff.mp hj
      subst hj'
      unfold demandConstraint
      norm_num [instA, List.range_succ]
    · have hi' : i = 0 := Nat.lt_one_iff.mp hi
      subst hi'
      unfold capacityConstraint
      norm_num [instA, totalDemand, List.range_succ, min_def]
  exact ⟨hc, (capacity_linking_constraint instA _ _ hc 0 (by norm_num [instA])).1⟩

/-- C5 counterexample: with solver value `open[0] = 1/2`, which exceeds
`eps`, extraction records the raw value `1/2` — not `1` — and computes
`fixed_costs = 1000 * (1/2) = 500`, not `fixed_cost * 1 = 1000` as the
claim states. -/
theorem extraction_raw_value_cex :
    eps < (1 / 2 : ℚ)
    ∧ (get_solution instA LpStatus.Optimal 0 (fun _ => 1 / 2) (fun _ _ => 0)).ys
        = [(0, 1 / 2)]
    ∧ (get_solution instA LpStatus.Optimal 0 (fun _ => 1 / 2) (fun _ _ => 0)).fixed_costs
        = 500
    ∧ (get_solution instA LpStatus.Optimal 0 (fun _ => 1 / 2) (fun _ _ => 0)).fixed_costs
        ≠ 1000 := by
  have h1 : eps < (1 / 2 : ℚ) := by norm_num [eps]
  have h1' : eps < (2⁻¹ : ℚ) := by norm_num [eps]
  have h2 : ¬(eps < (0 : ℚ)) := by norm_num [eps]
  have hys : (get_solution instA LpStatus.Optimal 0 (fun _ => 1 / 2) (fun _ _ => 0)).ys
      = [(0, 1 / 2)] := by
    simp [get_solution, instA, List.range_succ, List.filter_cons, h1, h1']
  have hfc : (get_solution instA LpStatus.Optimal 0 (fun _ => 1 / 2) (fun _ _ => 0)).fixed_costs
      = 500 := by
    simp [get_solution, instA, List.range_succ, List.filter_cons, h1, h1',
      Function.comp]
    norm_num
  refine ⟨h1, hys, hfc, ?_⟩
  rw [hfc]
  norm_num

/-- C5 amended: for every site whose solver value `open[i]` exceeds `eps`,
extraction records the pair `(i, open[i])` carrying the raw solver value
(not a normalised `1`), and `fixed_costs` is the sum of
`fixed_cost[i] * open[i]` — raw values — over the post-`eps` filtered
sites. -/
theorem extraction_records_raw_open_values (I : InstanceE) (st : LpStatus) (ov : ℝ)
    (yv : ℕ → ℚ) (xv : ℕ → ℕ → ℚ) (i : ℕ) (hi : i < I.n_sites) (hyi : eps < yv i) :
    (i, yv i) ∈ (get_solution I st ov yv xv).ys
    ∧ (get_solution I st ov yv xv).fixed_costs
      = (((List.range I.n_sites).filter (fun k => decide (eps < yv k))).map
          (fun k => I.fixed_cost k * yv k)).sum := by
  constructor
  · show (i, yv i) ∈ ((List.range I.n_sites).filter
        (fun k => decide (eps < yv k))).map (fun k => (k, yv k))
    refine List.mem_map.mpr ⟨i, ?_, rfl⟩
    exact List.mem_filter.mpr ⟨List.mem_range.mpr hi, by simpa using hyi⟩
  · show ((((List.range I.n_sites).filter (fun k => decide (eps < yv k))).map
        (fun k => (k, yv k))).map (fun p => I.fixed_cost p.1 * p.2)).sum = _
    rw [List.map_map]
    rfl

theorem extraction_records_raw_open_values_witness :
    (0, (1 : ℚ)) ∈ (get_solution instA LpStatus.Optimal 1000
        (fun _ => 1) (fun _ _ => 10)).ys
    ∧ (get_solution instA LpStatus.Optimal 1000 (fun _ => 1) (fun _ _ => 10)).fixed_costs
      = (((List.range instA.n_sites).filter (fun k => decide (eps < (1 : ℚ)))).map
          (fun k => instA.fixed_cost k * 1)).sum :=
  extraction_records_raw_open_values instA LpStatus.Optimal 1000
    (fun _ => 1) (fun _ _ => 10) 0 (by norm_num [instA]) (by norm_num [eps])

/-- C6: if the solver-reported objective value equals the model objective
evaluated at the returned variable values, and every returned variable
value is either exactly zero or above the `eps` tolerance, then the
extracted solution of an Optimal solve reproduces the objective value
exactly as `fixed_costs + variable_costs` — in particular within the
`1e-3` relative tolerance. -/
theorem cost_decomposition (I : InstanceE) (ov : ℝ) (yv : ℕ → ℚ) (xv : ℕ → ℕ → ℚ)
    (hy : ∀ i, yv i = 0 ∨ eps < yv i) (hx : ∀ i j, xv i j = 0 ∨ eps < xv i j)
    (hov : ov = modelObjective I yv xv) :
    |ov - (((get_solution I LpStatus.Optimal ov yv xv).fixed_costs : ℝ)
        + (get_solution I LpStatus.Optimal ov yv xv).variable_costs)|
      ≤ 1 / 1000 * |ov| := by
  have hfix : (get_solution I LpStatus.Optimal ov yv xv).fixed_costs
      = ((List.range I.n_sites).map (fun i => I.fixed_cost i * yv i)).sum := by
    show ((((List.range I.n_sites).filter (fun k => decide (eps < yv k))).map
        (fun k => (k, yv k))).map (fun p => I.fixed_cost p.1 * p.2)).sum = _
    rw [List.map_map]
    refine sum_map_filter_eq_sum_map _ _ _ ?_
    intro a _ hpa
    have hna : ¬(eps < yv a) := by simpa using hpa
    rcases hy a with h0 | h1
    · simp [Function.comp, h0]
    · exact absurd h1 hna
  have hvar : (get_solution I LpStatus.Optimal ov yv xv).variable_costs
      = ((sitePairs I).map
          (fun p => shippingCosts I p.1 p.2 * ((xv p.1 p.2 : ℚ) : ℝ))).sum := by
    show ((((sitePairs I).filter (fun p => decide (eps < xv p.1 p.2))).map
        (fun p => (p, xv p.1 p.2))).map
          (fun q => shippingCosts I q.1.1 q.1.2 * (q.2 : ℝ))).sum = _
    rw [List.map_map]
    refine sum_map_filter_eq_sum_map _ _ _ ?_
    intro p _ hpa
    have hnp : ¬(eps < xv p.1 p.2) := by simpa using hpa
    rcases hx p.1 p.2 with h0 | h1
    · simp [Function.comp, h0]
    · exact absurd h1 hnp
  have hmo : modelObjective I yv xv
      = (((((List.range I.n_sites).map (fun i => I.fixed_cost i * yv i)).sum : ℚ)) : ℝ)
        + ((sitePairs I).map
            (fun p => shippingCosts I p.1 p.2 * ((xv p.1 p.2 : ℚ) : ℝ))).sum := rfl
  rw [hfix, hvar, hov, hmo, sub_self, abs_zero]
  positivity

theorem cost_decomposition_witness :
    |modelObjective instA (fun _ => 1) (fun _ _ => 10)
        - (((get_solution instA LpStatus.Optimal
              (modelObjective instA (fun _ => 1) (fun _ _ => 10))
              (fun _ => 1) (fun _ _ => 10)).fixed_costs : ℝ)
            + (get_solution instA LpStatus.Optimal
                (modelObjective instA (fun _ => 1) (fun _ _ => 10))
                (fun _ => 1) (fun _ _ => 10)).variable_costs)|
      ≤ 1 / 1000 * |modelObjective instA (fun _ => 1) (fun _ _ => 10)| :=
  cost_decomposition instA (modelObjective instA (fun _ => 1) (fun _ _ => 10))
    (fun _ => 1) (fun _ _ => 10)
    (fun _ => Or.inr (by norm_num [eps]))
    (fun _ _ => Or.inr (by norm_num [eps]))
    rfl

/-- C10: `Instance.generate` fails whenever the demand range or the
capacity range is degenerate (`min = max`), because those values come from
a half-open integer draw requiring `min < max`; only the fixed-cost range
is guarded by the special case that assigns the constant to every site. -/
theorem generate_degenerate_ranges (n_customers n_sites : ℕ)
    (demand_range capacity_range fixed_cost_range : ℤ × ℤ) (shipping_cost : ℚ)
    (custLocs siteLocs : ℕ → Loc) (ωd ωf ωc : ℕ → ℤ) :
    ((demand_range.1 = demand_range.2 ∨ capacity_range.1 = capacity_range.2) →
      InstanceE.generate n_customers demand_range n_sites capacity_range
        fixed_cost_range shipping_cost custLocs siteLocs ωd ωf ωc = none)
    ∧ (fixed_cost_range.1 = fixed_cost_range.2 →
        demand_range.1 < demand_range.2 → capacity_range.1 < capacity_range.2 →
        ∃ I, InstanceE.generate n_customers demand_range n_sites capacity_range
            fixed_cost_range shipping_cost custLocs siteLocs ωd ωf ωc = some I
          ∧ ∀ i, i < n_sites → I.fixed_cost i = ((fixed_cost_range.1 : ℤ) : ℚ)) := by
  constructor
  · rintro (h | h)
    · have hd : np_randint demand_range.1 demand_range.2 n_customers ωd = none := by
        unfold np_randint
        rw [if_neg]
        rw [h]
        exact lt_irrefl _
      unfold InstanceE.generate
      rw [hd]
    · have hcnone : np_randint capacity_range.1 capacity_range.2 n_sites ωc = none := by
        unfold np_randint
        rw [if_neg]
        rw [h]
        exact lt_irrefl _
      unfold InstanceE.generate
      rcases hdr : np_randint demand_range.1 demand_range.2 n_customers ωd with _ | ds
      · rfl
      · rcases hfr : (if fixed_cost_range.1 = fixed_cost_range.2
            then some (List.replicate n_sites fixed_cost_range.1)
            else np_randint fixed_cost_range.1 fixed_cost_range.2 n_sites ωf)
          with _ | fs
        · rfl
        · rw [hcnone]
  · intro hf hd hc
    have hds : np_randint demand_range.1 demand_range.2 n_customers ωd
        = some ((List.range n_customers).map
            (fun k => demand_range.1 + ωd k % (demand_range.2 - demand_range.1))) := by
      unfold np_randint
      rw [if_pos hd]
    have hcs : np_randint capacity_range.1 capacity_range.2 n_sites ωc
        = some ((List.range n_sites).map
            (fun k => capacity_range.1 + ωc k % (capacity_range.2 - capacity_range.1))) := by
      unfold np_randint
      rw [if_pos hc]
    unfold InstanceE.generate
    rw [hds, if_pos hf, hcs]
    refine ⟨_, rfl, fun i hi => ?_⟩
    show (((List.replicate n_sites fixed_cost_range.1).getD i 0 : ℤ) : ℚ) = _
    rw [List.getD_eq_getElem _ _ (by simpa using hi), List.getElem_replicate]

theorem generate_degenerate_ranges_witness :
    InstanceE.generate 1 (3, 3) 1 (5, 9) (7, 7) 1 (fun _ => P0) (fun _ => P0)
        (fun _ => 0) (fun _ => 0) (fun _ => 0) = none
    ∧ InstanceE.generate 1 (3, 4) 1 (5, 5) (7, 7) 1 (fun _ => P0) (fun _ => P0)
        (fun _ => 0) (fun _ => 0) (fun _ => 0) = none
    ∧ ∃ I, InstanceE.generate 1 (3, 4) 1 (5, 9) (7, 7) 1 (fun _ => P0) (fun _ => P0)
          (fun _ => 0) (fun _ => 0) (fun _ => 0) = some I
        ∧ ∀ i, i < 1 → I.fixed_cost i = ((7 : ℤ) : ℚ) :=
  ⟨(generate_degenerate_ranges 1 1 (3, 3) (5, 9) (7, 7) 1 (fun _ => P0) (fun _ => P0)
      (fun _ => 0) (fun _ => 0) (fun _ => 0)).1 (Or.inl rfl),
   (generate_degenerate_ranges 1 1 (3, 4) (5, 5) (7, 7) 1 (fun _ => P0) (fun _ => P0)
      (fun _ => 0) (fun _ => 0) (fun _ => 0)).1 (Or.inr rfl),
   (generate_degenerate_ranges 1 1 (3, 4) (5, 9) (7, 7) 1 (fun _ => P0) (fun _ => P0)
      (fun _ => 0) (fun _ => 0) (fun _ => 0)).2 rfl (by norm_num) (by norm_num)⟩

end FLP
